import Mathlib

/-!
# AD4134 bring-up routine (`sw/sw_baremetal.c`)

A shallow embedding of the bare-metal diagnostic program and the proofs of its
register-level properties.

Modelling conventions
* `uint32_t` values are naturals; every C operation that can wrap is written with
  an explicit `% 4294967296` (that is `2^32`).
* The memory-mapped address space is a simulated backing store `Mem`: a map from
  an address to the 32-bit word stored there.  Hardware that changes a register
  behind the program's back is outside the model.
* The three base addresses come from `xparameters.h`, which is not part of the
  sources; they are the fields of `RegisterMap`.
* `Xil_Out32`, `Xil_In32`, `xil_printf` and `Xil_DCacheDisable` belong to the
  board support package.  They are modelled by their documented behaviour and
  each leaves an `Event` in the trace of the state.
* Loops carry a `fuel` argument; a loop that runs out of fuel yields `none`.
-/

namespace AD4134

/-! ## Address space and observable events -/

/-- The simulated address space: the word stored at each address. -/
abbrev Mem := Nat → Nat

/-- Replace the word at address `a`. -/
def Mem.store (m : Mem) (a v : Nat) : Mem := fun x => if x = a then v else m x

/-- The physical register map (`xparameters.h`). `BRAM_WORDS` is the capacity of the
capture buffer in 32-bit words; the program never uses it, it only delimits what
"a capture-buffer word" is. -/
structure RegisterMap where
  LEDS_BASE : Nat
  BRAM_CTRL_BASE : Nat
  BRAM_BASE : Nat
  BRAM_WORDS : Nat

/-- A register map is well formed when the three regions are 32-bit aligned, lie in
the 32-bit address space and do not overlap. -/
def RegisterMap.WellFormed (P : RegisterMap) : Prop :=
  P.LEDS_BASE % 4 = 0 ∧ P.BRAM_CTRL_BASE % 4 = 0 ∧ P.BRAM_BASE % 4 = 0 ∧
  P.LEDS_BASE < 4294967296 ∧ P.BRAM_CTRL_BASE < 4294967296 ∧
  P.BRAM_BASE + 4 * P.BRAM_WORDS ≤ 4294967296 ∧
  P.LEDS_BASE ≠ P.BRAM_CTRL_BASE ∧
  (P.LEDS_BASE < P.BRAM_BASE ∨ P.BRAM_BASE + 4 * P.BRAM_WORDS ≤ P.LEDS_BASE) ∧
  (P.BRAM_CTRL_BASE < P.BRAM_BASE ∨ P.BRAM_BASE + 4 * P.BRAM_WORDS ≤ P.BRAM_CTRL_BASE)

instance (P : RegisterMap) : Decidable P.WellFormed := by
  unfold RegisterMap.WellFormed; infer_instance

/-- The register map written in the comment of lines 23-25 of the source, with a
buffer of 1024 words. -/
def boardMap : RegisterMap :=
  { LEDS_BASE := 0x41200000, BRAM_CTRL_BASE := 0x41210000, BRAM_BASE := 0x40000000,
    BRAM_WORDS := 1024 }

/-- What the program does that can be observed from outside. -/
inductive Event where
  /-- A call `Xil_Out32(addr, value)`. -/
  | write (addr value : Nat)
  /-- A call `Xil_In32(addr)`. -/
  | read (addr : Nat)
  /-- A call `delay_ms(ms)`. -/
  | delay (ms : Nat)
  /-- A call `xil_printf(fmt, args...)`. -/
  | print (fmt : String) (args : List Nat)
  /-- A call `Xil_DCacheDisable()`. -/
  | dcacheDisable
  deriving DecidableEq, Repr

/-- Program state: the address space, the events so far (oldest first) and the number
of passes through the empty body of the busy loop. -/
structure State where
  mem : Mem
  trace : List Event
  spins : Nat

/-- Memory after the events of a trace, starting from `m`. -/
def replay (m : Mem) : List Event → Mem
  | [] => m
  | Event.write a v :: es => replay (m.store a v) es
  | _ :: es => replay m es

/-- The bus accesses and delay requests of a trace (console output left out). -/
def busEvents (t : List Event) : List Event :=
  t.filter fun e =>
    match e with
    | Event.write _ _ => true
    | Event.read _ => true
    | Event.delay _ => true
    | _ => false

/-- The register writes of a trace, as (address, value). -/
def writesOf (t : List Event) : List (Nat × Nat) :=
  t.filterMap fun e =>
    match e with
    | Event.write a v => some (a, v)
    | _ => none

/-- The addresses read in a trace. -/
def readsOf (t : List Event) : List Nat :=
  t.filterMap fun e =>
    match e with
    | Event.read a => some a
    | _ => none

/-- The delay requests of a trace. -/
def delaysOf (t : List Event) : List Nat :=
  t.filterMap fun e =>
    match e with
    | Event.delay ms => some ms
    | _ => none

/-- The (format, arguments) pairs printed in a trace. -/
def printsOf (t : List Event) : List (String × List Nat) :=
  t.filterMap fun e =>
    match e with
    | Event.print f a => some (f, a)
    | _ => none

/-! ## Board support package -/

/-- Function `Xil_Out32(Addr, Value)`: store the 32-bit value at the address. -/
def Xil_Out32 (addr value : Nat) (s : State) : State :=
  { s with mem := s.mem.store addr (value % 4294967296),
           trace := s.trace ++ [Event.write addr (value % 4294967296)] }

/-- Function `Xil_In32(Addr)`: the 32-bit word at the address. -/
def Xil_In32 (addr : Nat) (s : State) : Nat × State :=
  (s.mem addr % 4294967296, { s with trace := s.trace ++ [Event.read addr] })

/-- Function `Xil_DCacheDisable()`. -/
def Xil_DCacheDisable (s : State) : State :=
  { s with trace := s.trace ++ [Event.dcacheDisable] }

/-- Function `xil_printf(fmt, ...)`: the call is recorded; `render` gives its text. -/
def xil_printf (fmt : String) (args : List Nat) (s : State) : State :=
  { s with trace := s.trace ++ [Event.print fmt args] }

/-- A number in the given base, left-padded with `pad` to `width` characters. -/
def outnum (base : Nat) (pad : Char) (width n : Nat) : List Char :=
  List.replicate (width - (Nat.toDigits base n).length) pad ++ Nat.toDigits base n

/-- Where the formatter is: in literal text, or inside a conversion specification
(zero flag seen, width read so far). -/
inductive FmtMode where
  | text
  | spec (zero : Bool) (width : Nat)

/-- The text a `printf`-style format produces: `%[0][width][l]` followed by `u`, `d`
or `x`, and `%%`; an unknown conversion character is dropped. -/
def renderFrom : FmtMode → List Char → List Nat → List Char
  | _, [], _ => []
  | FmtMode.text, c :: cs, args =>
    if c = '%' then renderFrom (FmtMode.spec false 0) cs args
    else c :: renderFrom FmtMode.text cs args
  | FmtMode.spec z w, c :: cs, args =>
    if c = '0' ∧ w = 0 then renderFrom (FmtMode.spec true 0) cs args
    else if c.isDigit then renderFrom (FmtMode.spec z (10 * w + (c.toNat - 48))) cs args
    else if c = 'l' then renderFrom (FmtMode.spec z w) cs args
    else if c = 'u' ∨ c = 'd' then
      outnum 10 (if z then '0' else ' ') w args.headI ++ renderFrom FmtMode.text cs args.tail
    else if c = 'x' then
      outnum 16 (if z then '0' else ' ') w args.headI ++ renderFrom FmtMode.text cs args.tail
    else if c = '%' then '%' :: renderFrom FmtMode.text cs args
    else renderFrom FmtMode.text cs args

/-- The text of one `xil_printf` call. -/
def render (fmt : String) (args : List Nat) : List Char :=
  renderFrom FmtMode.text fmt.toList args

/-- Everything a trace wrote to the console. -/
def consoleOf : List Event → List Char
  | [] => []
  | Event.print f a :: es => render f a ++ consoleOf es
  | _ :: es => consoleOf es

/-! ## Loops -/

/-- Loop `for (i = i0; i < bound; i++) body` over a `uint32_t` counter. The result is the
final counter and state, `none` when the fuel runs out or the body fails. -/
def forLoop {σ : Type} (bound : Nat) (body : Nat → σ → Option σ) :
    Nat → Nat → σ → Option (Nat × σ)
  | 0, _, _ => none
  | fuel + 1, i, s =>
    if i < bound then
      match body i s with
      | none => none
      | some s' => forLoop bound body fuel ((i + 1) % 4294967296) s'
    else some (i, s)

/-- Loop `while (cond) body`: `none` when the fuel runs out or the body fails. -/
def whileLoop {σ : Type} (cond : σ → Nat) (body : σ → Option σ) : Nat → σ → Option σ
  | 0, _ => none
  | fuel + 1, s =>
    if cond s ≠ 0 then
      match body s with
      | none => none
      | some s' => whileLoop cond body fuel s'
    else some s

/-! ## The program -/

/-- One pass through the empty body of the inner delay loop. -/
def spin (s : State) : State := { s with spins := s.spins + 1 }

/-- The inner loop of `delay_ms`: `for (j = 0; j < 50000; j++) { }`. -/
def delay_inner (fuel : Nat) (s : State) : Option (Nat × State) :=
  forLoop 50000 (fun _ s => some (spin s)) fuel 0 s

/-- The outer loop of `delay_ms`: `for (i = 0; i < ms; i++) { inner }`, with the final
value of `i`. -/
def delay_outer (fuel ms : Nat) (s : State) : Option (Nat × State) :=
  forLoop ms (fun _ s => (delay_inner fuel s).map Prod.snd) fuel 0 s

/-- Function `static void delay_ms(uint32_t ms)`. The call is recorded as a delay request. -/
def delay_ms (fuel ms : Nat) (s : State) : Option State :=
  (delay_outer fuel ms { s with trace := s.trace ++ [Event.delay ms] }).map Prod.snd

/-- Function `static void leds_write(uint32_t value)`. -/
def leds_write (P : RegisterMap) (value : Nat) (s : State) : State :=
  Xil_Out32 P.LEDS_BASE value s

/-- Function `static uint32_t leds_read(void)`. -/
def leds_read (P : RegisterMap) (s : State) : Nat × State :=
  Xil_In32 P.LEDS_BASE s

/-- Function `static void bram_enable(int enable)`. -/
def bram_enable (P : RegisterMap) (enable : Int) (s : State) : State :=
  Xil_Out32 P.BRAM_CTRL_BASE (if enable ≠ 0 then 0xFFFFFFFF else 0x00000000) s

/-- The address `BRAM_BASE + (index * 4U)` in 32-bit unsigned arithmetic. -/
def bram_addr (P : RegisterMap) (index : Nat) : Nat :=
  (P.BRAM_BASE + (index * 4) % 4294967296) % 4294967296

/-- Function `static uint32_t bram_read_word(uint32_t index)`. -/
def bram_read_word (P : RegisterMap) (index : Nat) (s : State) : Nat × State :=
  Xil_In32 (bram_addr P index) s

/-- The body of the loop of `bram_read_words`: the index argument is evaluated, then
the word is read, then the line is printed. -/
def bram_read_words_body (P : RegisterMap) (start i : Nat) (s : State) : State :=
  let r := bram_read_word P ((start + i) % 4294967296) s
  xil_printf "BRAM[%lu] : 0x%08lx\r\n" [(start + i) % 4294967296, r.1] r.2

/-- Function `static void bram_read_words(uint32_t start, uint32_t count)`. -/
def bram_read_words (P : RegisterMap) (fuel start count : Nat) (s : State) : Option State :=
  (forLoop count (fun i s => some (bram_read_words_body P start i s)) fuel 0 s).map Prod.snd

/-- Lines 64-74 of `main`: data cache off, banner, first read of the LED register. -/
def main_banner (P : RegisterMap) (s : State) : State :=
  let s := Xil_DCacheDisable s
  let s := xil_printf "\r\n" [] s
  let s := xil_printf "========================================\r\n" [] s
  let s := xil_printf "AD4134 Automatic Test\r\n" [] s
  let s := xil_printf "========================================\r\n\r\n" [] s
  let s := xil_printf "--- Test 1: LED Test ---\r\n" [] s
  let r := leds_read P s
  xil_printf "Reading LED register: 0x%08lx\r\n" [r.1] r.2

/-- The write of line 79, with `led_val = (1U << i)` of line 78. -/
def led_walk_write (P : RegisterMap) (i : Nat) (s : State) : State :=
  leds_write P ((1 <<< i) % 4294967296) s

/-- Lines 78-81 of `main`: the body of the LED walk loop. -/
def led_walk_body (P : RegisterMap) (fuel i : Nat) (s : State) : Option State :=
  let s := led_walk_write P i s
  let s := xil_printf "LEDs <= 0x%02lx\r\n" [(1 <<< i) % 4294967296] s
  delay_ms fuel 200 s

/-- Lines 77-82 of `main`: `for (i = 0; i < 8; i++)`. -/
def led_walk (P : RegisterMap) (fuel : Nat) (s : State) : Option State :=
  (forLoop 8 (led_walk_body P fuel) fuel 0 s).map Prod.snd

/-- Lines 85-87 of `main`: all LEDs on. -/
def led_all_on (P : RegisterMap) (fuel : Nat) (s : State) : Option State :=
  let s := leds_write P 0x7F s
  let s := xil_printf "LEDs <= 0x7F (all on)\r\n" [] s
  delay_ms fuel 500 s

/-- Lines 90-92 of `main`: all LEDs off. -/
def led_all_off (P : RegisterMap) (fuel : Nat) (s : State) : Option State :=
  let s := leds_write P 0x00 s
  let s := xil_printf "LEDs <= 0x00 (all off)\r\n" [] s
  delay_ms fuel 500 s

/-- Lines 94-125 of `main`: the tests of the capture buffer. -/
def bram_tests (P : RegisterMap) (fuel : Nat) (s : State) : Option State := do
  let s := xil_printf "LED test complete.\r\n\r\n" [] s
  let s := xil_printf "--- Test 2: BRAM Read (before capture) ---\r\n" [] s
  let s := xil_printf "Reading first 8 BRAM words:\r\n" [] s
  let s ← bram_read_words P fuel 0 8 s
  let s := xil_printf "\r\n" [] s
  let s := xil_printf "--- Test 3: Enable BRAM Capture ---\r\n" [] s
  let s := bram_enable P 1 s
  let s := xil_printf "BRAM capture ENABLED\r\n" [] s
  let s := xil_printf "Waiting 1 second for ADC data...\r\n" [] s
  let s ← delay_ms fuel 1000 s
  let s := bram_enable P 0 s
  let s := xil_printf "BRAM capture DISABLED\r\n\r\n" [] s
  let s := xil_printf "--- Test 4: BRAM Read (after capture) ---\r\n" [] s
  let s := xil_printf "Reading first 24 BRAM words:\r\n" [] s
  let s ← bram_read_words P fuel 0 24 s
  let s := xil_printf "\r\n" [] s
  let s := xil_printf "--- Test 5: BRAM Read (offset 100) ---\r\n" [] s
  let s := xil_printf "Reading 12 words starting at offset 100:\r\n" [] s
  let s ← bram_read_words P fuel 100 12 s
  let s := xil_printf "\r\n" [] s
  return s

/-- Lines 128-139 of `main`: the summary. -/
def main_summary (s : State) : State :=
  let s := xil_printf "========================================\r\n" [] s
  let s := xil_printf "Test Complete!\r\n" [] s
  let s := xil_printf "========================================\r\n" [] s
  let s := xil_printf "\r\n" [] s
  let s := xil_printf "Check results:\r\n" [] s
  let s := xil_printf "- If LEDs cycled: GPIO works\r\n" [] s
  let s := xil_printf "- If BRAM has non-zero data: ADC capture works\r\n" [] s
  let s := xil_printf "- If BRAM is all zeros: Check ADC connections\r\n" [] s
  let s := xil_printf "\r\n" [] s
  xil_printf "Blinking LED 0 to indicate test complete...\r\n" [] s

/-- Lines 64-92 of `main`: everything up to the end of the LED test. -/
def main_led_test (P : RegisterMap) (fuel : Nat) (s : State) : Option State := do
  let s ← led_walk P fuel (main_banner P s)
  let s ← led_all_on P fuel s
  led_all_off P fuel s

/-- Lines 64-139 of `main`: everything before the idle loop. -/
def main_to_idle (P : RegisterMap) (fuel : Nat) (s : State) : Option State := do
  let s ← main_led_test P fuel s
  let s ← bram_tests P fuel s
  return main_summary s

/-- Lines 141-144 of `main`: the body of the idle loop. -/
def idle_body (P : RegisterMap) (fuel : Nat) (s : State) : Option State := do
  let s ← delay_ms fuel 500 (leds_write P 0x01 s)
  delay_ms fuel 500 (leds_write P 0x00 s)

/-- Function `int main(void)`: the value returned and the final state, if it returns. -/
def main (P : RegisterMap) (fuel : Nat) (s : State) : Option (Int × State) := do
  let s ← main_to_idle P fuel s
  let s ← whileLoop (fun _ => 1) (idle_body P fuel) fuel s
  return (0, s)

/-- Program points of the idle loop (lines 140-147). -/
inductive IdlePc where
  /-- The test of `while (1)`, line 140. -/
  | test
  /-- Before `leds_write(0x01)`, line 141. -/
  | ledOn
  /-- Before the first `delay_ms(500)`, line 142. -/
  | delayOn
  /-- Before `leds_write(0x00)`, line 143. -/
  | ledOff
  /-- Before the second `delay_ms(500)`, line 144. -/
  | delayOff
  /-- The statement `return 0`, line 147. -/
  | ret
  deriving DecidableEq, Repr

/-- One statement of the idle loop; `none` after `return 0` or when a delay runs out
of fuel. -/
def idle_step (P : RegisterMap) (fuel : Nat) : IdlePc × State → Option (IdlePc × State)
  | (IdlePc.test, s) => some (if (1 : Nat) ≠ 0 then IdlePc.ledOn else IdlePc.ret, s)
  | (IdlePc.ledOn, s) => some (IdlePc.delayOn, leds_write P 0x01 s)
  | (IdlePc.delayOn, s) => (delay_ms fuel 500 s).map fun s' => (IdlePc.ledOff, s')
  | (IdlePc.ledOff, s) => some (IdlePc.delayOff, leds_write P 0x00 s)
  | (IdlePc.delayOff, s) => (delay_ms fuel 500 s).map fun s' => (IdlePc.test, s')
  | (IdlePc.ret, _) => none

/-- The configuration after `k` statements of the idle loop. -/
def idle_run (P : RegisterMap) (fuel : Nat) : Nat → IdlePc × State → Option (IdlePc × State)
  | 0, c => some c
  | k + 1, c => (idle_run P fuel k c).bind (idle_step P fuel)

/-! ## Derived notions used in the statements -/

/-- The state after the iterations `i, i+1, ..., i+n-1` of a loop whose body always
succeeds with `step`. -/
def iterFrom {σ : Type} (step : Nat → σ → σ) : Nat → Nat → σ → σ
  | 0, _, s => s
  | n + 1, i, s => iterFrom step n (i + 1) (step i s)

/-- The program starts with an empty trace. -/
def initState (m : Mem) : State := { mem := m, trace := [], spins := 0 }

/-- The events of the `k`-th entry of a dump that starts at `start`, in memory `m`. -/
def dumpEntry (P : RegisterMap) (m : Mem) (start k : Nat) : List Event :=
  [Event.read (bram_addr P ((start + k) % 4294967296)),
   Event.print "BRAM[%lu] : 0x%08lx\r\n"
     [(start + k) % 4294967296, m (bram_addr P ((start + k) % 4294967296)) % 4294967296]]

/-- The events of a dump of `count` words from `start`, in memory `m`. -/
def dumpEvents (P : RegisterMap) (m : Mem) (start count : Nat) : List Event :=
  (List.range count).flatMap (dumpEntry P m start)

/-- The eight hexadecimal digits of a 32-bit word, most significant first. -/
def hex8 (w : Nat) : List Char :=
  [Nat.digitChar (w / 268435456 % 16), Nat.digitChar (w / 16777216 % 16),
   Nat.digitChar (w / 1048576 % 16), Nat.digitChar (w / 65536 % 16),
   Nat.digitChar (w / 4096 % 16), Nat.digitChar (w / 256 % 16),
   Nat.digitChar (w / 16 % 16), Nat.digitChar (w % 16)]

/-- The line expected for index `n` holding word `w`: the index in decimal without
padding, the word as eight hexadecimal digits, then CR LF. -/
def bramLine (n w : Nat) : List Char :=
  "BRAM[".toList ++ (Nat.repr n).toList ++ "] : 0x".toList ++ hex8 w ++ "\r\n".toList

/-- The events of the first 75 lines of `main`, in memory `m`. -/
def bannerEvents (P : RegisterMap) (m : Mem) : List Event :=
  [Event.dcacheDisable,
   Event.print "\r\n" [],
   Event.print "========================================\r\n" [],
   Event.print "AD4134 Automatic Test\r\n" [],
   Event.print "========================================\r\n\r\n" [],
   Event.print "--- Test 1: LED Test ---\r\n" [],
   Event.read P.LEDS_BASE,
   Event.print "Reading LED register: 0x%08lx\r\n" [m P.LEDS_BASE % 4294967296]]

/-- The events of iteration `i` of the LED walk. -/
def walkEntry (P : RegisterMap) (i : Nat) : List Event :=
  [Event.write P.LEDS_BASE ((1 <<< i) % 4294967296),
   Event.print "LEDs <= 0x%02lx\r\n" [(1 <<< i) % 4294967296],
   Event.delay 200]

/-- The events of the first `n` iterations of the LED walk. -/
def walkEvents (P : RegisterMap) (n : Nat) : List Event :=
  (List.range n).flatMap (walkEntry P)

/-- The events of the all-on and all-off steps. -/
def onOffEvents (P : RegisterMap) : List Event :=
  [Event.write P.LEDS_BASE 0x7F,
   Event.print "LEDs <= 0x7F (all on)\r\n" [],
   Event.delay 500,
   Event.write P.LEDS_BASE 0x00,
   Event.print "LEDs <= 0x00 (all off)\r\n" [],
   Event.delay 500]

/-- The events of the capture-buffer tests, entered with memory `m`. -/
def bramEvents (P : RegisterMap) (m : Mem) : List Event :=
  [Event.print "LED test complete.\r\n\r\n" [],
   Event.print "--- Test 2: BRAM Read (before capture) ---\r\n" [],
   Event.print "Reading first 8 BRAM words:\r\n" []] ++
  dumpEvents P m 0 8 ++
  [Event.print "\r\n" [],
   Event.print "--- Test 3: Enable BRAM Capture ---\r\n" [],
   Event.write P.BRAM_CTRL_BASE 0xFFFFFFFF,
   Event.print "BRAM capture ENABLED\r\n" [],
   Event.print "Waiting 1 second for ADC data...\r\n" [],
   Event.delay 1000,
   Event.write P.BRAM_CTRL_BASE 0x00000000,
   Event.print "BRAM capture DISABLED\r\n\r\n" [],
   Event.print "--- Test 4: BRAM Read (after capture) ---\r\n" [],
   Event.print "Reading first 24 BRAM words:\r\n" []] ++
  dumpEvents P (m.store P.BRAM_CTRL_BASE 0) 0 24 ++
  [Event.print "\r\n" [],
   Event.print "--- Test 5: BRAM Read (offset 100) ---\r\n" [],
   Event.print "Reading 12 words starting at offset 100:\r\n" []] ++
  dumpEvents P (m.store P.BRAM_CTRL_BASE 0) 100 12 ++
  [Event.print "\r\n" []]

/-- The events of the summary. -/
def summaryEvents : List Event :=
  [Event.print "========================================\r\n" [],
   Event.print "Test Complete!\r\n" [],
   Event.print "========================================\r\n" [],
   Event.print "\r\n" [],
   Event.print "Check results:\r\n" [],
   Event.print "- If LEDs cycled: GPIO works\r\n" [],
   Event.print "- If BRAM has non-zero data: ADC capture works\r\n" [],
   Event.print "- If BRAM is all zeros: Check ADC connections\r\n" [],
   Event.print "\r\n" [],
   Event.print "Blinking LED 0 to indicate test complete...\r\n" []]

/-- The events of `main` up to the end of the LED test, started in memory `m`. -/
def ledTestEvents (P : RegisterMap) (m : Mem) : List Event :=
  bannerEvents P m ++ walkEvents P 8 ++ onOffEvents P

/-- The events of `main` before the idle loop, started in memory `m`. -/
def mainEvents (P : RegisterMap) (m : Mem) : List Event :=
  ledTestEvents P m ++ bramEvents P (m.store P.LEDS_BASE 0) ++ summaryEvents

/-- The events of one iteration of the idle loop. -/
def idleEvents (P : RegisterMap) : List Event :=
  [Event.write P.LEDS_BASE 0x01, Event.delay 500, Event.write P.LEDS_BASE 0x00, Event.delay 500]

/-- The events of the capture-buffer tests up to the write that disables the
capture, entered with memory `m`. -/
def captureEvents (P : RegisterMap) (m : Mem) : List Event :=
  [Event.print "LED test complete.\r\n\r\n" [],
   Event.print "--- Test 2: BRAM Read (before capture) ---\r\n" [],
   Event.print "Reading first 8 BRAM words:\r\n" []] ++
  dumpEvents P m 0 8 ++
  [Event.print "\r\n" [],
   Event.print "--- Test 3: Enable BRAM Capture ---\r\n" [],
   Event.write P.BRAM_CTRL_BASE 0xFFFFFFFF,
   Event.print "BRAM capture ENABLED\r\n" [],
   Event.print "Waiting 1 second for ADC data...\r\n" [],
   Event.delay 1000,
   Event.write P.BRAM_CTRL_BASE 0x00000000]

/-- The events of the capture-buffer tests after the capture is disabled, in memory `m`. -/
def postCaptureEvents (P : RegisterMap) (m : Mem) : List Event :=
  [Event.print "BRAM capture DISABLED\r\n\r\n" [],
   Event.print "--- Test 4: BRAM Read (after capture) ---\r\n" [],
   Event.print "Reading first 24 BRAM words:\r\n" []] ++
  dumpEvents P m 0 24 ++
  [Event.print "\r\n" [],
   Event.print "--- Test 5: BRAM Read (offset 100) ---\r\n" [],
   Event.print "Reading 12 words starting at offset 100:\r\n" []] ++
  dumpEvents P m 100 12 ++
  [Event.print "\r\n" []]

/-- The program point of the idle loop after `k` statements. -/
def idlePcAt (k : Nat) : IdlePc :=
  match k % 5 with
  | 0 => IdlePc.test
  | 1 => IdlePc.ledOn
  | 2 => IdlePc.delayOn
  | 3 => IdlePc.ledOff
  | _ => IdlePc.delayOff

/-- The events of the statement executed after `k` statements of the idle loop. -/
def idleStepEvents (P : RegisterMap) (k : Nat) : List Event :=
  match k % 5 with
  | 1 => [Event.write P.LEDS_BASE 0x01]
  | 2 => [Event.delay 500]
  | 3 => [Event.write P.LEDS_BASE 0x00]
  | 4 => [Event.delay 500]
  | _ => []

/-- The events of the first `k` statements of the idle loop. -/
def idleTrace (P : RegisterMap) (k : Nat) : List Event :=
  (List.range k).flatMap (idleStepEvents P)

/-- The configuration of `main` after the part before the idle loop and `k` statements
of the idle loop. -/
def main_run (P : RegisterMap) (fuel k : Nat) (s : State) : Option (IdlePc × State) :=
  (main_to_idle P fuel s).bind fun sE => idle_run P fuel k (IdlePc.test, sE)

/-- Two events agree up to a word read: they are equal, or they are the same print of
a line that shows a word read from a register, with a different word. -/
def sameUpToWord (e1 e2 : Event) : Prop :=
  e1 = e2 ∨ ∃ f pre v1 v2,
    (f = "BRAM[%lu] : 0x%08lx\r\n" ∨ f = "Reading LED register: 0x%08lx\r\n") ∧
    e1 = Event.print f (pre ++ [v1]) ∧ e2 = Event.print f (pre ++ [v2])

/-! ## Loops run to completion -/

theorem forLoop_eq {σ : Type} (bound : Nat) (body : Nat → σ → Option σ) (step : Nat → σ → σ)
    (hb : bound < 4294967296) (hbody : ∀ k s, k < bound → body k s = some (step k s)) :
    ∀ (fuel i : Nat) (s : σ), i ≤ bound → bound - i < fuel →
      forLoop bound body fuel i s = some (bound, iterFrom step (bound - i) i s) := by
  intro fuel
  induction fuel with
  | zero => intro i s _ h; omega
  | succ f ih =>
    intro i s hi hf
    unfold forLoop
    by_cases hlt : i < bound
    · have hmod : (i + 1) % 4294967296 = i + 1 := Nat.mod_eq_of_lt (by omega)
      have hsub : bound - i = (bound - (i + 1)) + 1 := by omega
      rw [if_pos hlt, hbody i s hlt, hmod, hsub]
      simp only [iterFrom]
      exact ih (i + 1) (step i s) (by omega) (by omega)
    · have : i = bound := by omega
      subst this
      simp [iterFrom]

theorem iterFrom_succ {σ : Type} (step : Nat → σ → σ) (n i : Nat) (s : σ) :
    iterFrom step (n + 1) i s = step (i + n) (iterFrom step n i s) := by
  induction n generalizing i s with
  | zero => simp [iterFrom]
  | succ n ih =>
    rw [iterFrom, ih (i + 1) (step i s)]
    simp only [iterFrom]
    congr 1
    omega

theorem iterFrom_spin (n i : Nat) (s : State) :
    iterFrom (fun _ s => spin s) n i s = { s with spins := s.spins + n } := by
  induction n generalizing i s with
  | zero => simp [iterFrom]
  | succ n ih =>
    rw [iterFrom, ih]
    simp only [spin]
    congr 1
    omega

theorem delay_inner_eq (fuel : Nat) (s : State) (hf : 50000 < fuel) :
    delay_inner fuel s = some (50000, { s with spins := s.spins + 50000 }) := by
  unfold delay_inner
  rw [forLoop_eq 50000 _ (fun _ s => spin s) (by omega) (fun _ _ _ => rfl) fuel 0 s
    (by omega) (by omega)]
  simp [iterFrom_spin]

theorem iterFrom_delay (n i : Nat) (s : State) :
    iterFrom (fun _ (s : State) => ({ s with spins := s.spins + 50000 } : State)) n i s
      = { s with spins := s.spins + n * 50000 } := by
  induction n generalizing i s with
  | zero => simp [iterFrom]
  | succ n ih =>
    rw [iterFrom, ih]
    simp only
    congr 1
    ring

theorem delay_outer_eq (fuel ms : Nat) (s : State) (hms : ms < 4294967296)
    (hf : 50000 < fuel) (hf' : ms < fuel) :
    delay_outer fuel ms s = some (ms, { s with spins := s.spins + ms * 50000 }) := by
  unfold delay_outer
  rw [forLoop_eq ms _ (fun _ (s : State) => ({ s with spins := s.spins + 50000 } : State)) hms
    (fun _ s _ => by simp [delay_inner_eq fuel s hf]) fuel 0 s (by omega) (by omega)]
  simp [iterFrom_delay]

theorem delay_ms_eq (fuel ms : Nat) (s : State) (hms : ms < 4294967296)
    (hf : 50000 < fuel) (hf' : ms < fuel) :
    delay_ms fuel ms s
      = some { s with trace := s.trace ++ [Event.delay ms], spins := s.spins + ms * 50000 } := by
  unfold delay_ms
  rw [delay_outer_eq fuel ms _ hms hf hf']
  rfl

theorem iterFrom_dump (P : RegisterMap) (start n : Nat) (s : State) :
    iterFrom (bram_read_words_body P start) n 0 s
      = { s with trace := s.trace ++ dumpEvents P s.mem start n } := by
  induction n with
  | zero => simp [iterFrom, dumpEvents]
  | succ n ih =>
    rw [iterFrom_succ, ih]
    simp [bram_read_words_body, bram_read_word, Xil_In32, xil_printf, dumpEvents,
      List.range_succ, dumpEntry]

theorem bram_read_words_eq (P : RegisterMap) (fuel start count : Nat) (s : State)
    (hc : count < 4294967296) (hf : count < fuel) :
    bram_read_words P fuel start count s
      = some { s with trace := s.trace ++ dumpEvents P s.mem start count } := by
  unfold bram_read_words
  rw [forLoop_eq count _ (bram_read_words_body P start) hc (fun _ _ _ => rfl) fuel 0 s
    (by omega) (by omega)]
  simp [iterFrom_dump]

/-! ## Reading and enabling the capture buffer -/

theorem printsOf_dumpEvents (P : RegisterMap) (m : Mem) (start count : Nat) :
    printsOf (dumpEvents P m start count)
      = (List.range count).map fun k =>
          ("BRAM[%lu] : 0x%08lx\r\n",
            [(start + k) % 4294967296, m (bram_addr P ((start + k) % 4294967296)) % 4294967296]) := by
  induction count with
  | zero => rfl
  | succ n ih =>
    simp only [dumpEvents, printsOf] at ih ⊢
    simp [List.range_succ, ih, dumpEntry]

theorem readsOf_dumpEvents (P : RegisterMap) (m : Mem) (start count : Nat) :
    readsOf (dumpEvents P m start count)
      = (List.range count).map fun k => bram_addr P ((start + k) % 4294967296) := by
  induction count with
  | zero => rfl
  | succ n ih =>
    simp only [dumpEvents, readsOf] at ih ⊢
    simp [List.range_succ, ih, dumpEntry]

theorem writesOf_dumpEvents (P : RegisterMap) (m : Mem) (start count : Nat) :
    writesOf (dumpEvents P m start count) = [] := by
  induction count with
  | zero => rfl
  | succ n ih =>
    simp only [dumpEvents, writesOf] at ih ⊢
    simp [List.range_succ, ih, dumpEntry]

/-- C1: for 32-bit `start` and `count` with `start + count ≤ 2^32`, `bram_read_words`
returns, leaves the memory as it was and emits exactly `count` entries; the `k`-th one
carries the index `start + k` and the value `bram_read_word (start + k)` returns in the
state of the call, and its read goes to the address of that index. Nothing is written,
and with `count = 0` nothing is emitted. -/
theorem bram_read_words_emits (P : RegisterMap) (fuel start count : Nat) (s : State)
    (hc : count < 4294967296) (hsum : start + count ≤ 4294967296) (hf : count < fuel) :
    ∃ s' new, bram_read_words P fuel start count s = some s' ∧ s'.mem = s.mem ∧
      s'.trace = s.trace ++ new ∧
      printsOf new = (List.range count).map (fun k =>
        ("BRAM[%lu] : 0x%08lx\r\n", [start + k, (bram_read_word P (start + k) s).1])) ∧
      (printsOf new).length = count ∧
      readsOf new = (List.range count).map (fun k => bram_addr P (start + k)) ∧
      writesOf new = [] ∧
      (count = 0 → s' = s) := by
  have hmod : ∀ k, k ∈ List.range count → (start + k) % 4294967296 = start + k := by
    intro k hk
    have := List.mem_range.mp hk
    exact Nat.mod_eq_of_lt (by omega)
  have hp : printsOf (dumpEvents P s.mem start count) = (List.range count).map (fun k =>
        ("BRAM[%lu] : 0x%08lx\r\n", [start + k, (bram_read_word P (start + k) s).1])) := by
    rw [printsOf_dumpEvents]
    apply List.map_congr_left
    intro k hk
    simp [hmod k hk, bram_read_word, Xil_In32]
  refine ⟨_, dumpEvents P s.mem start count, bram_read_words_eq P fuel start count s hc hf,
    rfl, rfl, hp, ?_, ?_, writesOf_dumpEvents P s.mem start count, ?_⟩
  · rw [hp]; simp
  · rw [readsOf_dumpEvents]
    apply List.map_congr_left
    intro k hk
    rw [hmod k hk]
  · intro h0
    subst h0
    simp [dumpEvents]

/-- C1 at `start = 100`, `count = 8` on the board map, in a memory where every word
holds its own address. -/
theorem bram_read_words_emits_witness :
    (8 : Nat) < 4294967296 ∧ 100 + 8 ≤ 4294967296 ∧ 8 < 9 ∧
    ∃ s' new, bram_read_words boardMap 9 100 8 (initState fun a => a) = some s' ∧
      s'.mem = (initState fun a => a).mem ∧
      s'.trace = (initState fun a => a).trace ++ new ∧
      printsOf new = (List.range 8).map (fun k =>
        ("BRAM[%lu] : 0x%08lx\r\n",
          [100 + k, (bram_read_word boardMap (100 + k) (initState fun a => a)).1])) ∧
      (printsOf new).length = 8 ∧
      readsOf new = (List.range 8).map (fun k => bram_addr boardMap (100 + k)) ∧
      writesOf new = [] ∧
      ((8 : Nat) = 0 → s' = initState fun a => a) :=
  ⟨by decide, by decide, by decide,
    bram_read_words_emits boardMap 9 100 8 (initState fun a => a) (by decide) (by decide)
      (by decide)⟩

/-- The word `bram_read_word` returns, for any index: the one at the wrapped address. -/
theorem bram_read_word_val (P : RegisterMap) (index : Nat) (s : State) :
    bram_read_word P index s
      = (s.mem ((P.BRAM_BASE + (index * 4) % 4294967296) % 4294967296) % 4294967296,
         { s with trace := s.trace ++
            [Event.read ((P.BRAM_BASE + (index * 4) % 4294967296) % 4294967296)] }) := rfl

/-- C2 as stated fails at the 32-bit index `2^30`: in a memory that holds 1 at
`BRAM_BASE` and 0 elsewhere, `bram_read_word` returns the word at `BRAM_BASE` (the
product `index * 4U` wraps to 0), not the word at `BRAM_BASE + 4 * 2^30`. -/
theorem bram_read_word_wraps :
    (1073741824 : Nat) < 4294967296 ∧
    (bram_read_word boardMap 1073741824
        (initState fun a => if a = 0x40000000 then 1 else 0)).1
      ≠ (initState fun a => if a = 0x40000000 then 1 else 0).mem
          (boardMap.BRAM_BASE + 4 * 1073741824) % 4294967296 := by
  decide

/-- C2, amended: when `BRAM_BASE + 4 * index` stays below `2^32`, `bram_read_word`
returns the 32-bit word stored at that address and reads nothing else. -/
theorem bram_read_word_in_range (P : RegisterMap) (index : Nat) (s : State)
    (h : P.BRAM_BASE + 4 * index < 4294967296) :
    bram_read_word P index s
      = (s.mem (P.BRAM_BASE + 4 * index) % 4294967296,
         { s with trace := s.trace ++ [Event.read (P.BRAM_BASE + 4 * index)] }) := by
  have h1 : (index * 4) % 4294967296 = 4 * index := by
    rw [Nat.mod_eq_of_lt (by omega)]; omega
  rw [bram_read_word_val, h1, Nat.mod_eq_of_lt h]

/-- C2, amended, at index 111 on the board map. -/
theorem bram_read_word_in_range_witness :
    boardMap.BRAM_BASE + 4 * 111 < 4294967296 ∧
    bram_read_word boardMap 111 (initState fun a => a)
      = ((initState fun a => a).mem (boardMap.BRAM_BASE + 4 * 111) % 4294967296,
         { (initState fun a => a) with trace := (initState fun a => a).trace ++
            [Event.read (boardMap.BRAM_BASE + 4 * 111)] }) :=
  ⟨by decide, bram_read_word_in_range boardMap 111 (initState fun a => a) (by decide)⟩

/-- C3: after `bram_enable(enable)` the capture-control register holds `0xFFFFFFFF`
when `enable` is non-zero and `0` when it is zero; the LED register and every word of
the capture buffer keep their value, and the only access made is that one write. -/
theorem bram_enable_sets_control (P : RegisterMap) (enable : Int) (s : State)
    (hP : P.WellFormed) :
    (bram_enable P enable s).mem P.BRAM_CTRL_BASE
        = (if enable ≠ 0 then 0xFFFFFFFF else 0x00000000) ∧
    (bram_enable P enable s).mem P.LEDS_BASE = s.mem P.LEDS_BASE ∧
    (∀ k, k < P.BRAM_WORDS →
      (bram_enable P enable s).mem (P.BRAM_BASE + 4 * k) = s.mem (P.BRAM_BASE + 4 * k)) ∧
    (bram_enable P enable s).trace = s.trace ++
      [Event.write P.BRAM_CTRL_BASE (if enable ≠ 0 then 0xFFFFFFFF else 0x00000000)] := by
  obtain ⟨_, _, _, _, _, _, hne, _, hb⟩ := hP
  refine ⟨?_, ?_, ?_, ?_⟩
  · by_cases he : enable = 0 <;> simp [bram_enable, Xil_Out32, Mem.store, he]
  · simp [bram_enable, Xil_Out32, Mem.store, hne]
  · intro k hk
    have : P.BRAM_BASE + 4 * k ≠ P.BRAM_CTRL_BASE := by omega
    simp [bram_enable, Xil_Out32, Mem.store, this]
  · by_cases he : enable = 0 <;> simp [bram_enable, Xil_Out32, he]

/-- C3 at `enable = 1` on the board map. -/
theorem bram_enable_sets_control_witness :
    boardMap.WellFormed ∧
    (bram_enable boardMap 1 (initState fun _ => 0)).mem boardMap.BRAM_CTRL_BASE
        = (if (1 : Int) ≠ 0 then 0xFFFFFFFF else 0x00000000) ∧
    (bram_enable boardMap 1 (initState fun _ => 0)).mem boardMap.LEDS_BASE
        = (initState fun _ => 0).mem boardMap.LEDS_BASE ∧
    (∀ k, k < boardMap.BRAM_WORDS →
      (bram_enable boardMap 1 (initState fun _ => 0)).mem (boardMap.BRAM_BASE + 4 * k)
        = (initState fun _ => 0).mem (boardMap.BRAM_BASE + 4 * k)) ∧
    (bram_enable boardMap 1 (initState fun _ => 0)).trace = (initState fun _ => 0).trace ++
      [Event.write boardMap.BRAM_CTRL_BASE (if (1 : Int) ≠ 0 then 0xFFFFFFFF else 0x00000000)] :=
  ⟨by decide, bram_enable_sets_control boardMap 1 (initState fun _ => 0) (by decide)⟩

/-! ## The delay primitive -/

/-- C10: for every 32-bit `ms`, `delay_ms(ms)` returns. The inner loop ends with its
counter at 50000 after 50000 passes, the outer loop ends with its counter at `ms`
after `ms * 50000` passes of the inner body in all (none when `ms = 0`), and the call
changes no word of the address space: the LED register, the capture-control register
and every capture-buffer word are as before. -/
theorem delay_ms_terminates (P : RegisterMap) (fuel ms : Nat) (s : State)
    (hms : ms < 4294967296) (hf : 50000 < fuel) (hf' : ms < fuel) :
    delay_inner fuel s = some (50000, { s with spins := s.spins + 50000 }) ∧
    delay_outer fuel ms s = some (ms, { s with spins := s.spins + ms * 50000 }) ∧
    ∃ s', delay_ms fuel ms s = some s' ∧
      s'.spins = s.spins + ms * 50000 ∧
      s'.trace = s.trace ++ [Event.delay ms] ∧
      s'.mem = s.mem ∧
      s'.mem P.LEDS_BASE = s.mem P.LEDS_BASE ∧
      s'.mem P.BRAM_CTRL_BASE = s.mem P.BRAM_CTRL_BASE ∧
      ∀ k, s'.mem (P.BRAM_BASE + 4 * k) = s.mem (P.BRAM_BASE + 4 * k) :=
  ⟨delay_inner_eq fuel s hf, delay_outer_eq fuel ms s hms hf hf',
    _, delay_ms_eq fuel ms s hms hf hf', rfl, rfl, rfl, rfl, rfl, fun _ => rfl⟩

/-- C10 at the largest 32-bit argument, `ms = 0xFFFFFFFF`. -/
theorem delay_ms_terminates_witness :
    (4294967295 : Nat) < 4294967296 ∧ (50000 : Nat) < 4294967296 ∧
    (4294967295 : Nat) < 4294967296 ∧
    delay_inner 4294967296 (initState fun a => a)
      = some (50000, { (initState fun a => a) with
          spins := (initState fun a => a).spins + 50000 }) ∧
    delay_outer 4294967296 4294967295 (initState fun a => a)
      = some (4294967295, { (initState fun a => a) with
          spins := (initState fun a => a).spins + 4294967295 * 50000 }) ∧
    ∃ s', delay_ms 4294967296 4294967295 (initState fun a => a) = some s' ∧
      s'.spins = (initState fun a => a).spins + 4294967295 * 50000 ∧
      s'.trace = (initState fun a => a).trace ++ [Event.delay 4294967295] ∧
      s'.mem = (initState fun a => a).mem ∧
      s'.mem boardMap.LEDS_BASE = (initState fun a => a).mem boardMap.LEDS_BASE ∧
      s'.mem boardMap.BRAM_CTRL_BASE = (initState fun a => a).mem boardMap.BRAM_CTRL_BASE ∧
      ∀ k, s'.mem (boardMap.BRAM_BASE + 4 * k)
        = (initState fun a => a).mem (boardMap.BRAM_BASE + 4 * k) :=
  ⟨by decide, by decide, by decide,
    delay_ms_terminates boardMap 4294967296 4294967295 (initState fun a => a)
      (by decide) (by decide) (by decide)⟩

/-! ## The text of a dump -/

theorem toDigitsCore_fuel (b : Nat) :
    ∀ (k : Nat), 0 < k → ∀ (n f : Nat) (ds : List Char), n < b ^ k → k ≤ f →
      Nat.toDigitsCore b f n ds = Nat.toDigitsCore b k n ds := by
  intro k
  induction k with
  | zero => intro h; omega
  | succ k ih =>
    intro _ n f ds hn hf
    obtain ⟨f', rfl⟩ : ∃ f', f = f' + 1 := ⟨f - 1, by omega⟩
    simp only [Nat.toDigitsCore]
    by_cases h0 : n / b = 0
    · simp [h0]
    · simp only [h0, if_false]
      have hb : 0 < b := by
        rcases Nat.eq_zero_or_pos b with h | h
        · subst h; simp at h0
        · exact h
      have hlt : n / b < b ^ k := by
        rw [Nat.div_lt_iff_lt_mul hb]
        simpa [pow_succ] using hn
      have hk : 0 < k := by
        rcases Nat.eq_zero_or_pos k with h | h
        · subst h; simp at hlt; omega
        · exact h
      exact ih hk (n / b) f' _ hlt (by omega)

theorem toDigits_eq_core (b k n : Nat) (hb : 2 ≤ b) (hk : 0 < k) (hn : n < b ^ k) :
    Nat.toDigits b n = Nat.toDigitsCore b k n [] := by
  unfold Nat.toDigits
  rcases Nat.le_total k (n + 1) with h | h
  · exact toDigitsCore_fuel b k hk n (n + 1) [] hn h
  · have h1 : n < b ^ (n + 1) :=
      lt_of_lt_of_le (Nat.lt_pow_self hb n) (Nat.pow_le_pow_right (by omega) (by omega))
    exact (toDigitsCore_fuel b (n + 1) (by omega) n k [] h1 h).symm

theorem outnum_hex8 (w : Nat) (hw : w < 4294967296) : outnum 16 '0' 8 w = hex8 w := by
  unfold outnum
  rw [toDigits_eq_core 16 8 w (by omega) (by omega) (by norm_num; exact hw)]
  simp only [Nat.toDigitsCore, Nat.div_div_eq_div_mul, Nat.reduceMul]
  have d0 : Nat.digitChar 0 = '0' := rfl
  split_ifs with h1 h2 h3 h4 h5 h6 h7 h8
  · have e1 : w / 16 % 16 = 0 := by omega
    have e2 : w / 256 % 16 = 0 := by omega
    have e3 : w / 4096 % 16 = 0 := by omega
    have e4 : w / 65536 % 16 = 0 := by omega
    have e5 : w / 1048576 % 16 = 0 := by omega
    have e6 : w / 16777216 % 16 = 0 := by omega
    have e7 : w / 268435456 % 16 = 0 := by omega
    simp [hex8, e1, e2, e3, e4, e5, e6, e7, d0, List.replicate]
  · have e2 : w / 256 % 16 = 0 := by omega
    have e3 : w / 4096 % 16 = 0 := by omega
    have e4 : w / 65536 % 16 = 0 := by omega
    have e5 : w / 1048576 % 16 = 0 := by omega
    have e6 : w / 16777216 % 16 = 0 := by omega
    have e7 : w / 268435456 % 16 = 0 := by omega
    simp [hex8, e2, e3, e4, e5, e6, e7, d0, List.replicate]
  · have e3 : w / 4096 % 16 = 0 := by omega
    have e4 : w / 65536 % 16 = 0 := by omega
    have e5 : w / 1048576 % 16 = 0 := by omega
    have e6 : w / 16777216 % 16 = 0 := by omega
    have e7 : w / 268435456 % 16 = 0 := by omega
    simp [hex8, e3, e4, e5, e6, e7, d0, List.replicate]
  · have e4 : w / 65536 % 16 = 0 := by omega
    have e5 : w / 1048576 % 16 = 0 := by omega
    have e6 : w / 16777216 % 16 = 0 := by omega
    have e7 : w / 268435456 % 16 = 0 := by omega
    simp [hex8, e4, e5, e6, e7, d0, List.replicate]
  · have e5 : w / 1048576 % 16 = 0 := by omega
    have e6 : w / 16777216 % 16 = 0 := by omega
    have e7 : w / 268435456 % 16 = 0 := by omega
    simp [hex8, e5, e6, e7, d0, List.replicate]
  · have e6 : w / 16777216 % 16 = 0 := by omega
    have e7 : w / 268435456 % 16 = 0 := by omega
    simp [hex8, e6, e7, d0, List.replicate]
  · have e7 : w / 268435456 % 16 = 0 := by omega
    simp [hex8, e7, d0, List.replicate]
  · have e8 : w / 268435456 % 16 = w / 268435456 := by omega
    simp [hex8, e8, List.replicate]
  · omega

theorem render_bram_line (n w : Nat) (hw : w < 4294967296) :
    render "BRAM[%lu] : 0x%08lx\r\n" [n, w] = bramLine n w := by
  have h : render "BRAM[%lu] : 0x%08lx\r\n" [n, w]
      = "BRAM[".toList ++ (outnum 10 ' ' 0 n ++ ("] : 0x".toList ++
          (outnum 16 '0' 8 w ++ "\r\n".toList))) := rfl
  rw [h, outnum_hex8 w hw]
  simp [outnum, bramLine, Nat.repr]
  rfl

theorem consoleOf_append (a b : List Event) : consoleOf (a ++ b) = consoleOf a ++ consoleOf b := by
  induction a with
  | nil => rfl
  | cons e es ih => cases e <;> simp [consoleOf, ih]

theorem consoleOf_dumpEvents (P : RegisterMap) (m : Mem) (start count : Nat) :
    consoleOf (dumpEvents P m start count)
      = (List.range count).flatMap fun k =>
          bramLine ((start + k) % 4294967296)
            (m (bram_addr P ((start + k) % 4294967296)) % 4294967296) := by
  induction count with
  | zero => rfl
  | succ n ih =>
    simp only [dumpEvents] at ih ⊢
    simp [List.range_succ, consoleOf_append, ih, dumpEntry, consoleOf,
      render_bram_line _ _ (Nat.mod_lt _ (by omega : 4294967296 > 0))]

set_option maxRecDepth 100000 in
theorem bramLine_first_eight :
    (List.range 8).flatMap (fun k => bramLine k k)
      = ("BRAM[0] : 0x00000000\r\nBRAM[1] : 0x00000001\r\nBRAM[2] : 0x00000002\r\n" ++
         "BRAM[3] : 0x00000003\r\nBRAM[4] : 0x00000004\r\nBRAM[5] : 0x00000005\r\n" ++
         "BRAM[6] : 0x00000006\r\nBRAM[7] : 0x00000007\r\n").toList := by
  decide

/-- C7: the console text `bram_read_words` adds is, for each `k` below `count` in
order, the line `BRAM[<start+k in decimal>] : 0x<the word as 8 hexadecimal digits>`
followed by CR LF; when words 0..7 of the buffer hold 0..7, `bram_read_words(0, 8)`
prints exactly the eight lines `BRAM[0] : 0x00000000` to `BRAM[7] : 0x00000007`. -/
theorem bram_read_words_text (P : RegisterMap) (fuel start count : Nat) (s : State)
    (hc : count < 4294967296) (hsum : start + count ≤ 4294967296) (hf : count < fuel) :
    ∃ s', bram_read_words P fuel start count s = some s' ∧
      consoleOf s'.trace = consoleOf s.trace ++
        (List.range count).flatMap (fun k =>
          bramLine (start + k) (bram_read_word P (start + k) s).1) ∧
      (start = 0 → count = 8 → (∀ k, k < 8 → (bram_read_word P k s).1 = k) →
        consoleOf s'.trace = consoleOf s.trace ++
          ("BRAM[0] : 0x00000000\r\nBRAM[1] : 0x00000001\r\nBRAM[2] : 0x00000002\r\n" ++
           "BRAM[3] : 0x00000003\r\nBRAM[4] : 0x00000004\r\nBRAM[5] : 0x00000005\r\n" ++
           "BRAM[6] : 0x00000006\r\nBRAM[7] : 0x00000007\r\n").toList) := by
  have hgen : consoleOf (s.trace ++ dumpEvents P s.mem start count)
      = consoleOf s.trace ++ (List.range count).flatMap (fun k =>
          bramLine (start + k) (bram_read_word P (start + k) s).1) := by
    rw [consoleOf_append, consoleOf_dumpEvents]
    congr 1
    apply List.flatMap_congr
    intro k hk
    have := List.mem_range.mp hk
    have hmod : (start + k) % 4294967296 = start + k := Nat.mod_eq_of_lt (by omega)
    simp [hmod, bram_read_word, Xil_In32]
  refine ⟨_, bram_read_words_eq P fuel start count s hc hf, hgen, ?_⟩
  intro h0 h8 hw
  subst h0 h8
  rw [hgen]
  congr 1
  have : (List.range 8).flatMap (fun k => bramLine (0 + k) (bram_read_word P (0 + k) s).1)
      = (List.range 8).flatMap (fun k => bramLine k k) := by
    apply List.flatMap_congr
    intro k hk
    have := List.mem_range.mp hk
    simp [hw k this]
  rw [this]
  exact bramLine_first_eight

set_option maxRecDepth 100000 in
/-- C7 in the scenario of the specification: words 0..7 of the buffer hold 0..7 and
the console is empty before the call. -/
theorem bram_read_words_text_witness :
    (8 : Nat) < 4294967296 ∧ 0 + 8 ≤ 4294967296 ∧ 8 < 9 ∧
    (∀ k, k < 8 →
      (bram_read_word boardMap k (initState fun a => (a - 0x40000000) / 4)).1 = k) ∧
    ∃ s', bram_read_words boardMap 9 0 8 (initState fun a => (a - 0x40000000) / 4) = some s' ∧
      consoleOf s'.trace =
        ("BRAM[0] : 0x00000000\r\nBRAM[1] : 0x00000001\r\nBRAM[2] : 0x00000002\r\n" ++
         "BRAM[3] : 0x00000003\r\nBRAM[4] : 0x00000004\r\nBRAM[5] : 0x00000005\r\n" ++
         "BRAM[6] : 0x00000006\r\nBRAM[7] : 0x00000007\r\n").toList := by
  refine ⟨by decide, by decide, by decide, by decide, ?_⟩
  obtain ⟨s', h1, _, h3⟩ := bram_read_words_text boardMap 9 0 8
    (initState fun a => (a - 0x40000000) / 4) (by decide) (by decide) (by decide)
  exact ⟨s', h1, h3 rfl rfl (by decide)⟩

/-! ## The sequencer -/

theorem store_store (m : Mem) (a v w : Nat) : (m.store a v).store a w = m.store a w := by
  funext x
  simp only [Mem.store]
  split <;> rfl

theorem replay_append (m : Mem) (a b : List Event) :
    replay m (a ++ b) = replay (replay m a) b := by
  induction a generalizing m with
  | nil => rfl
  | cons e es ih => cases e <;> simp [replay, ih]

theorem led_walk_body_eq (P : RegisterMap) (fuel i : Nat) (s : State) (hf : 50000 < fuel) :
    led_walk_body P fuel i s
      = some { mem := s.mem.store P.LEDS_BASE ((1 <<< i) % 4294967296),
               trace := s.trace ++ walkEntry P i,
               spins := s.spins + 200 * 50000 } := by
  simp [led_walk_body, led_walk_write, leds_write, Xil_Out32, xil_printf,
    delay_ms_eq fuel 200 _ (by omega) hf (by omega), walkEntry]

theorem iterFrom_walk (P : RegisterMap) (n : Nat) (s : State) :
    iterFrom (fun i (s : State) =>
        ({ mem := s.mem.store P.LEDS_BASE ((1 <<< i) % 4294967296),
           trace := s.trace ++ walkEntry P i,
           spins := s.spins + 200 * 50000 } : State)) n 0 s
      = { mem := replay s.mem (walkEvents P n),
          trace := s.trace ++ walkEvents P n,
          spins := s.spins + n * (200 * 50000) } := by
  induction n with
  | zero => simp [iterFrom, walkEvents, replay]
  | succ n ih =>
    rw [iterFrom_succ, ih]
    have hm : replay (replay s.mem (walkEvents P n)) (walkEntry P n)
        = (replay s.mem (walkEvents P n)).store P.LEDS_BASE ((1 <<< n) % 4294967296) := rfl
    have hs : s.spins + n * (200 * 50000) + 200 * 50000 = s.spins + (n + 1) * (200 * 50000) := by
      ring
    simp only [walkEvents, List.range_succ, List.flatMap_append, List.flatMap_singleton,
      replay_append, List.append_assoc, Nat.zero_add, List.flatMap_nil, List.append_nil]
    rw [hs]
    rfl

theorem led_walk_eq (P : RegisterMap) (fuel : Nat) (s : State) (hf : 50000 < fuel) :
    led_walk P fuel s
      = some { mem := s.mem.store P.LEDS_BASE 128,
               trace := s.trace ++ walkEvents P 8,
               spins := s.spins + 80000000 } := by
  unfold led_walk
  rw [forLoop_eq 8 _ _ (by omega) (fun k s _ => led_walk_body_eq P fuel k s hf) fuel 0 s
    (by omega) (by omega)]
  rw [iterFrom_walk]
  simp [walkEvents, List.range_succ, walkEntry, replay, store_store]

theorem main_led_test_eq (P : RegisterMap) (fuel : Nat) (s : State) (hf : 50000 < fuel) :
    main_led_test P fuel s
      = some { mem := s.mem.store P.LEDS_BASE 0,
               trace := s.trace ++ ledTestEvents P s.mem,
               spins := s.spins + 130000000 } := by
  simp [main_led_test, main_banner, led_walk_eq _ _ _ hf, led_all_on, led_all_off,
    delay_ms_eq fuel 500 _ (by omega) hf (by omega), leds_write, leds_read, Xil_Out32,
    Xil_In32, Xil_DCacheDisable, xil_printf, store_store, ledTestEvents, bannerEvents,
    onOffEvents, Nat.add_assoc]

theorem bram_tests_eq (P : RegisterMap) (fuel : Nat) (s : State) (hf : 50000 < fuel) :
    bram_tests P fuel s
      = some { mem := s.mem.store P.BRAM_CTRL_BASE 0,
               trace := s.trace ++ bramEvents P s.mem,
               spins := s.spins + 50000000 } := by
  simp [bram_tests, bram_read_words_eq P fuel _ _ _ (by omega) (by omega : 8 < fuel),
    bram_read_words_eq P fuel _ _ _ (by omega) (by omega : 24 < fuel),
    bram_read_words_eq P fuel _ _ _ (by omega) (by omega : 12 < fuel),
    delay_ms_eq fuel 1000 _ (by omega) hf (by omega), bram_enable, Xil_Out32, xil_printf,
    store_store, bramEvents, Nat.add_assoc]

theorem main_to_idle_eq (P : RegisterMap) (fuel : Nat) (s : State) (hf : 50000 < fuel) :
    main_to_idle P fuel s
      = some { mem := (s.mem.store P.LEDS_BASE 0).store P.BRAM_CTRL_BASE 0,
               trace := s.trace ++ mainEvents P s.mem,
               spins := s.spins + 180000000 } := by
  simp [main_to_idle, main_led_test_eq P fuel _ hf, bram_tests_eq P fuel _ hf, main_summary,
    xil_printf, mainEvents, summaryEvents, Nat.add_assoc]

/-! ## The LED test -/

theorem walk_value (i : Nat) (hi : i < 8) : (1 <<< i) % 4294967296 = 1 <<< i := by
  interval_cases i <;> decide

/-- C4: for every bit position `i` below 8, the state in which iteration `i` of the
LED walk starts exists, and right after the write of that iteration the LED register
holds `1 << i`, a word whose only set bit is bit `i`. The walk returns after exactly 8
writes, of `1 << 0` to `1 << 7` in ascending order, each followed by its print and a
200 ms delay request. -/
theorem led_walk_single_bit (P : RegisterMap) (fuel : Nat) (s : State) (hf : 50000 < fuel) :
    (∀ i, i < 8 → ∃ si, forLoop i (led_walk_body P fuel) fuel 0 s = some (i, si) ∧
      (led_walk_write P i si).mem P.LEDS_BASE = 1 <<< i ∧
      (led_walk_write P i si).trace = si.trace ++ [Event.write P.LEDS_BASE (1 <<< i)] ∧
      (∀ j, Nat.testBit (1 <<< i) j = decide (i = j)) ∧
      led_walk_body P fuel i si
        = delay_ms fuel 200
            (xil_printf "LEDs <= 0x%02lx\r\n" [1 <<< i] (led_walk_write P i si))) ∧
    ∃ s', led_walk P fuel s = some s' ∧
      s'.trace = s.trace ++ (List.range 8).flatMap (fun i =>
        [Event.write P.LEDS_BASE (1 <<< i), Event.print "LEDs <= 0x%02lx\r\n" [1 <<< i],
         Event.delay 200]) ∧
      writesOf (s'.trace.drop s.trace.length)
        = (List.range 8).map (fun i => (P.LEDS_BASE, 1 <<< i)) ∧
      busEvents (s'.trace.drop s.trace.length)
        = (List.range 8).flatMap (fun i =>
            [Event.write P.LEDS_BASE (1 <<< i), Event.delay 200]) := by
  refine ⟨?_, ?_⟩
  · intro i hi
    refine ⟨_, forLoop_eq i _ _ (by omega) (fun k s _ => led_walk_body_eq P fuel k s hf)
      fuel 0 s (by omega) (by omega), ?_, ?_, ?_, ?_⟩
    · simp [led_walk_write, leds_write, Xil_Out32, Mem.store, walk_value i hi]
    · simp [led_walk_write, leds_write, Xil_Out32, walk_value i hi]
    · intro j
      rw [Nat.one_shiftLeft, Nat.testBit_two_pow]
    · simp [led_walk_body, walk_value i hi]
  · refine ⟨_, led_walk_eq P fuel s hf, ?_, ?_, ?_⟩
    · simp [walkEvents, walkEntry, List.range_succ]
    · simp [walkEvents, walkEntry, List.range_succ, writesOf]
    · simp [walkEvents, walkEntry, List.range_succ, busEvents]

/-- C4 on the board map, from a memory of zeros. -/
theorem led_walk_single_bit_witness :
    (50000 : Nat) < 50001 ∧
    (∀ i, i < 8 → ∃ si,
      forLoop i (led_walk_body boardMap 50001) 50001 0 (initState fun _ => 0) = some (i, si) ∧
      (led_walk_write boardMap i si).mem boardMap.LEDS_BASE = 1 <<< i ∧
      (led_walk_write boardMap i si).trace
        = si.trace ++ [Event.write boardMap.LEDS_BASE (1 <<< i)] ∧
      (∀ j, Nat.testBit (1 <<< i) j = decide (i = j)) ∧
      led_walk_body boardMap 50001 i si
        = delay_ms 50001 200
            (xil_printf "LEDs <= 0x%02lx\r\n" [1 <<< i] (led_walk_write boardMap i si))) ∧
    ∃ s', led_walk boardMap 50001 (initState fun _ => 0) = some s' ∧
      s'.trace = (initState fun _ => 0).trace ++ (List.range 8).flatMap (fun i =>
        [Event.write boardMap.LEDS_BASE (1 <<< i),
         Event.print "LEDs <= 0x%02lx\r\n" [1 <<< i], Event.delay 200]) ∧
      writesOf (s'.trace.drop (initState fun _ => 0).trace.length)
        = (List.range 8).map (fun i => (boardMap.LEDS_BASE, 1 <<< i)) ∧
      busEvents (s'.trace.drop (initState fun _ => 0).trace.length)
        = (List.range 8).flatMap (fun i =>
            [Event.write boardMap.LEDS_BASE (1 <<< i), Event.delay 200]) :=
  ⟨by decide, led_walk_single_bit boardMap 50001 (initState fun _ => 0) (by decide)⟩

/-- C5: in `main`, the LED walk returns, and the step after it writes `0x7F` to the LED
register and the next one writes `0x00`; each of the two writes is followed by its
print and a 500 ms delay request, and the memory changes at the LED register only. -/
theorem led_all_on_then_off (P : RegisterMap) (fuel : Nat) (s0 : State) (hf : 50000 < fuel) :
    ∃ sw s1 s2, led_walk P fuel (main_banner P s0) = some sw ∧
      led_all_on P fuel sw = some s1 ∧ led_all_off P fuel s1 = some s2 ∧
      main_led_test P fuel s0 = some s2 ∧
      (leds_write P 0x7F sw).mem P.LEDS_BASE = 0x7F ∧
      s1.mem = sw.mem.store P.LEDS_BASE 0x7F ∧ s1.mem P.LEDS_BASE = 0x7F ∧
      (leds_write P 0x00 s1).mem P.LEDS_BASE = 0x00 ∧
      s2.mem = s1.mem.store P.LEDS_BASE 0x00 ∧ s2.mem P.LEDS_BASE = 0x00 ∧
      s1.trace = sw.trace ++
        [Event.write P.LEDS_BASE 0x7F, Event.print "LEDs <= 0x7F (all on)\r\n" [],
         Event.delay 500] ∧
      s2.trace = s1.trace ++
        [Event.write P.LEDS_BASE 0x00, Event.print "LEDs <= 0x00 (all off)\r\n" [],
         Event.delay 500] := by
  have hd := fun s => delay_ms_eq fuel 500 s (by omega) hf (by omega)
  have h1 : ∀ s : State, led_all_on P fuel s
      = some { mem := s.mem.store P.LEDS_BASE 0x7F,
               trace := s.trace ++ [Event.write P.LEDS_BASE 0x7F,
                 Event.print "LEDs <= 0x7F (all on)\r\n" [], Event.delay 500],
               spins := s.spins + 500 * 50000 } := by
    intro s
    simp [led_all_on, hd, leds_write, Xil_Out32, xil_printf]
  have h2 : ∀ s : State, led_all_off P fuel s
      = some { mem := s.mem.store P.LEDS_BASE 0x00,
               trace := s.trace ++ [Event.write P.LEDS_BASE 0x00,
                 Event.print "LEDs <= 0x00 (all off)\r\n" [], Event.delay 500],
               spins := s.spins + 500 * 50000 } := by
    intro s
    simp [led_all_off, hd, leds_write, Xil_Out32, xil_printf]
  refine ⟨_, _, _, led_walk_eq P fuel _ hf, h1 _, h2 _, ?_, ?_, ?_, ?_, ?_, ?_, ?_, ?_, ?_⟩
  · simp [main_led_test, led_walk_eq P fuel _ hf, h1, h2]
  all_goals simp [leds_write, Xil_Out32, Mem.store]

/-- C5 on the board map, from a memory where every word holds 5. -/
theorem led_all_on_then_off_witness :
    (50000 : Nat) < 50001 ∧
    ∃ sw s1 s2, led_walk boardMap 50001 (main_banner boardMap (initState fun _ => 5)) = some sw ∧
      led_all_on boardMap 50001 sw = some s1 ∧ led_all_off boardMap 50001 s1 = some s2 ∧
      main_led_test boardMap 50001 (initState fun _ => 5) = some s2 ∧
      (leds_write boardMap 0x7F sw).mem boardMap.LEDS_BASE = 0x7F ∧
      s1.mem = sw.mem.store boardMap.LEDS_BASE 0x7F ∧ s1.mem boardMap.LEDS_BASE = 0x7F ∧
      (leds_write boardMap 0x00 s1).mem boardMap.LEDS_BASE = 0x00 ∧
      s2.mem = s1.mem.store boardMap.LEDS_BASE 0x00 ∧ s2.mem boardMap.LEDS_BASE = 0x00 ∧
      s1.trace = sw.trace ++
        [Event.write boardMap.LEDS_BASE 0x7F, Event.print "LEDs <= 0x7F (all on)\r\n" [],
         Event.delay 500] ∧
      s2.trace = s1.trace ++
        [Event.write boardMap.LEDS_BASE 0x00, Event.print "LEDs <= 0x00 (all off)\r\n" [],
         Event.delay 500] :=
  ⟨by decide, led_all_on_then_off boardMap 50001 (initState fun _ => 5) (by decide)⟩

/-! ## The idle loop -/

theorem idleTrace_succ (P : RegisterMap) (k : Nat) :
    idleTrace P (k + 1) = idleTrace P k ++ idleStepEvents P k := by
  simp [idleTrace, List.range_succ]

theorem idle_run_eq (P : RegisterMap) (fuel : Nat) (hf : 50000 < fuel) (s : State) :
    ∀ k, idle_run P fuel k (IdlePc.test, s)
      = some (idlePcAt k,
          { mem := replay s.mem (idleTrace P k),
            trace := s.trace ++ idleTrace P k,
            spins := s.spins + (delaysOf (idleTrace P k)).length * 25000000 }) := by
  have hd := fun s => delay_ms_eq fuel 500 s (by omega) hf (by omega)
  intro k
  induction k with
  | zero => simp [idle_run, idlePcAt, idleTrace, replay, delaysOf]
  | succ k ih =>
    rw [idle_run, ih, idleTrace_succ]
    have h5 : k % 5 = 0 ∨ k % 5 = 1 ∨ k % 5 = 2 ∨ k % 5 = 3 ∨ k % 5 = 4 := by omega
    rcases h5 with h | h | h | h | h
    · have h' : (k + 1) % 5 = 1 := by omega
      simp [idlePcAt, idleStepEvents, h, h', idle_step, replay_append, replay, delaysOf]
    · have h' : (k + 1) % 5 = 2 := by omega
      simp [idlePcAt, idleStepEvents, h, h', idle_step, replay_append, replay, delaysOf,
        leds_write, Xil_Out32]
    · have h' : (k + 1) % 5 = 3 := by omega
      simp [idlePcAt, idleStepEvents, h, h', idle_step, replay_append, replay, delaysOf, hd,
        List.filterMap_append]
      ring
    · have h' : (k + 1) % 5 = 4 := by omega
      simp [idlePcAt, idleStepEvents, h, h', idle_step, replay_append, replay, delaysOf,
        leds_write, Xil_Out32]
    · have h' : (k + 1) % 5 = 0 := by omega
      simp [idlePcAt, idleStepEvents, h, h', idle_step, replay_append, replay, delaysOf, hd,
        List.filterMap_append]
      ring

theorem idleTrace_iterations (P : RegisterMap) (n : Nat) :
    idleTrace P (5 * n) = (List.range n).flatMap (fun _ => idleEvents P) := by
  induction n with
  | zero => rfl
  | succ n ih =>
    have e : 5 * (n + 1) = 5 * n + 1 + 1 + 1 + 1 + 1 := by ring
    have h0 : (5 * n) % 5 = 0 := by omega
    have h1 : (5 * n + 1) % 5 = 1 := by omega
    have h2 : (5 * n + 1 + 1) % 5 = 2 := by omega
    have h3 : (5 * n + 1 + 1 + 1) % 5 = 3 := by omega
    have h4 : (5 * n + 1 + 1 + 1 + 1) % 5 = 4 := by omega
    rw [e, idleTrace_succ, idleTrace_succ, idleTrace_succ, idleTrace_succ, idleTrace_succ, ih]
    simp [idleStepEvents, h0, h1, h2, h3, h4, List.range_succ, idleEvents]

theorem mem_idleTrace (P : RegisterMap) (k : Nat) (e : Event) (he : e ∈ idleTrace P k) :
    e = Event.write P.LEDS_BASE 0x01 ∨ e = Event.write P.LEDS_BASE 0x00 ∨
      e = Event.delay 500 := by
  simp only [idleTrace, List.mem_flatMap, List.mem_range] at he
  obtain ⟨j, _, hj⟩ := he
  have h5 : j % 5 = 0 ∨ j % 5 = 1 ∨ j % 5 = 2 ∨ j % 5 = 3 ∨ j % 5 = 4 := by omega
  rcases h5 with h | h | h | h | h <;> simp [idleStepEvents, h] at hj <;> simp [hj]

theorem replay_inv (Q : Nat → Prop) (a : Nat) (t : List Event) :
    ∀ m : Mem, Q (m a) → (∀ v, Event.write a v ∈ t → Q v) → Q (replay m t a) := by
  induction t with
  | nil => intro m h0 _; exact h0
  | cons e es ih =>
    intro m h0 hw
    cases e with
    | write x v =>
      simp only [replay]
      apply ih
      · simp only [Mem.store]
        split
        · next hx => subst hx; exact hw v (by simp)
        · exact h0
      · intro v' hv'; exact hw v' (by simp [hv'])
    | read x => exact ih m h0 (fun v' hv' => hw v' (by simp [hv']))
    | delay x => exact ih m h0 (fun v' hv' => hw v' (by simp [hv']))
    | print f x => exact ih m h0 (fun v' hv' => hw v' (by simp [hv']))
    | dcacheDisable => exact ih m h0 (fun v' hv' => hw v' (by simp [hv']))

theorem whileLoop_one (body : State → Option State) :
    ∀ (fuel : Nat) (s : State), whileLoop (fun _ => 1) body fuel s = none := by
  intro fuel
  induction fuel with
  | zero => intro s; rfl
  | succ f ih =>
    intro s
    simp only [whileLoop]
    cases body s with
    | none => simp
    | some s' => simp [ih]

theorem idle_run_five (P : RegisterMap) (fuel : Nat) (s : State) :
    idle_run P fuel 5 (IdlePc.test, s)
      = (idle_body P fuel s).map fun s' => (IdlePc.test, s') := by
  cases h1 : delay_ms fuel 500 (leds_write P 1 s) with
  | none => simp [idle_run, idle_step, idle_body, h1]
  | some s1 =>
    cases h2 : delay_ms fuel 500 (leds_write P 0 s1) <;>
      simp [idle_run, idle_step, idle_body, h1, h2]

theorem writesOf_append (a b : List Event) : writesOf (a ++ b) = writesOf a ++ writesOf b := by
  simp [writesOf, List.filterMap_append]

theorem busEvents_append (a b : List Event) : busEvents (a ++ b) = busEvents a ++ busEvents b := by
  simp [busEvents, List.filter_append]

theorem write_mem_iff (a v : Nat) (t : List Event) :
    Event.write a v ∈ t ↔ (a, v) ∈ writesOf t := by
  induction t with
  | nil => simp [writesOf]
  | cons e es ih =>
    simp only [writesOf] at ih
    cases e <;> simp [writesOf, ih]

theorem replay_of_no_writes (t : List Event) (h : writesOf t = []) (m : Mem) :
    replay m t = m := by
  induction t generalizing m with
  | nil => rfl
  | cons e es ih =>
    cases e with
    | write x v => simp [writesOf] at h
    | read x => exact ih (by simpa [writesOf] using h) m
    | delay x => exact ih (by simpa [writesOf] using h) m
    | print f x => exact ih (by simpa [writesOf] using h) m
    | dcacheDisable => exact ih (by simpa [writesOf] using h) m

theorem writesOf_idle_iterations (P : RegisterMap) (n : Nat) :
    writesOf ((List.range n).flatMap (fun _ => idleEvents P))
      = (List.range n).flatMap (fun _ => [(P.LEDS_BASE, 0x01), (P.LEDS_BASE, 0x00)]) := by
  induction n with
  | zero => rfl
  | succ n ih =>
    simp only [List.range_succ, List.flatMap_append, writesOf_append, ih]
    simp [writesOf, idleEvents]

theorem main_never_returns (P : RegisterMap) (fuel : Nat) (s : State) : main P fuel s = none := by
  simp only [main]
  cases main_to_idle P fuel s with
  | none => rfl
  | some sE => simp [whileLoop_one]

/-- C6: once `main` has reached its idle loop, the first `n` iterations make exactly the
events write `0x01` to the LED register, delay 500, write `0x00` to the LED register,
delay 500, `n` times over. After any number of statements of the loop the program is
at a point other than `return 0`, the LED register holds `0x01` or `0x00`, and the
capture-control register and every capture-buffer word hold what they held on entry.
`main` returns for no amount of fuel. -/
theorem idle_loop_blinks (P : RegisterMap) (fuel : Nat) (s0 : State) (hP : P.WellFormed)
    (hf : 50000 < fuel) :
    ∃ sE, main_to_idle P fuel s0 = some sE ∧
      (∀ n, ∃ sn, idle_run P fuel (5 * n) (IdlePc.test, sE) = some (IdlePc.test, sn) ∧
        sn.trace = sE.trace ++ (List.range n).flatMap (fun _ =>
          [Event.write P.LEDS_BASE 0x01, Event.delay 500,
           Event.write P.LEDS_BASE 0x00, Event.delay 500]) ∧
        writesOf (sn.trace.drop sE.trace.length)
          = (List.range n).flatMap (fun _ => [(P.LEDS_BASE, 0x01), (P.LEDS_BASE, 0x00)])) ∧
      (∀ k, ∃ c, idle_run P fuel k (IdlePc.test, sE) = some c ∧ c.1 ≠ IdlePc.ret ∧
        (c.2.mem P.LEDS_BASE = 0x01 ∨ c.2.mem P.LEDS_BASE = 0x00) ∧
        c.2.mem P.BRAM_CTRL_BASE = sE.mem P.BRAM_CTRL_BASE ∧
        (∀ j, j < P.BRAM_WORDS →
          c.2.mem (P.BRAM_BASE + 4 * j) = sE.mem (P.BRAM_BASE + 4 * j))) ∧
      (∀ s, idle_run P fuel 5 (IdlePc.test, s)
        = (idle_body P fuel s).map fun s' => (IdlePc.test, s')) ∧
      (∀ f, main P f s0 = none) := by
  obtain ⟨_, _, _, _, _, _, hne, _, hb⟩ := hP
  refine ⟨_, main_to_idle_eq P fuel s0 hf, ?_, ?_, idle_run_five P fuel,
    fun f => main_never_returns P f s0⟩
  · intro n
    have hpc : idlePcAt (5 * n) = IdlePc.test := by
      have : (5 * n) % 5 = 0 := by omega
      simp [idlePcAt, this]
    refine ⟨_, by rw [idle_run_eq P fuel hf, hpc], ?_, ?_⟩
    · simp only [idleTrace_iterations]
      rfl
    · simp only [idleTrace_iterations, List.drop_left]
      exact writesOf_idle_iterations P n
  · intro k
    refine ⟨_, idle_run_eq P fuel hf _ k, ?_, ?_, ?_, ?_⟩
    · have h5 : k % 5 = 0 ∨ k % 5 = 1 ∨ k % 5 = 2 ∨ k % 5 = 3 ∨ k % 5 = 4 := by omega
      rcases h5 with h | h | h | h | h <;> simp [idlePcAt, h]
    · apply replay_inv (fun v => v = 0x01 ∨ v = 0x00)
      · right
        simp only [Mem.store]
        split <;> simp
      · intro v hv
        rcases mem_idleTrace P k _ hv with h | h | h
        · left; injection h
        · right; injection h
        · cases h
    · apply replay_inv (fun v => v = _)
      · rfl
      · intro v hv
        rcases mem_idleTrace P k _ hv with h | h | h
        · injection h with h1 _; exact absurd h1.symm hne
        · injection h with h1 _; exact absurd h1.symm hne
        · cases h
    · intro j hj
      apply replay_inv (fun v => v = _)
      · rfl
      · intro v hv
        have hx : P.BRAM_BASE + 4 * j ≠ P.LEDS_BASE := by omega
        rcases mem_idleTrace P k _ hv with h | h | h
        · injection h with h1 _; exact absurd h1 hx
        · injection h with h1 _; exact absurd h1 hx
        · cases h

/-- C6 on the board map, from a memory where every word holds its own address. -/
theorem idle_loop_blinks_witness :
    boardMap.WellFormed ∧ (50000 : Nat) < 50001 ∧
    ∃ sE, main_to_idle boardMap 50001 (initState fun a => a) = some sE ∧
      (∀ n, ∃ sn, idle_run boardMap 50001 (5 * n) (IdlePc.test, sE) = some (IdlePc.test, sn) ∧
        sn.trace = sE.trace ++ (List.range n).flatMap (fun _ =>
          [Event.write boardMap.LEDS_BASE 0x01, Event.delay 500,
           Event.write boardMap.LEDS_BASE 0x00, Event.delay 500]) ∧
        writesOf (sn.trace.drop sE.trace.length)
          = (List.range n).flatMap (fun _ =>
              [(boardMap.LEDS_BASE, 0x01), (boardMap.LEDS_BASE, 0x00)])) ∧
      (∀ k, ∃ c, idle_run boardMap 50001 k (IdlePc.test, sE) = some c ∧ c.1 ≠ IdlePc.ret ∧
        (c.2.mem boardMap.LEDS_BASE = 0x01 ∨ c.2.mem boardMap.LEDS_BASE = 0x00) ∧
        c.2.mem boardMap.BRAM_CTRL_BASE = sE.mem boardMap.BRAM_CTRL_BASE ∧
        (∀ j, j < boardMap.BRAM_WORDS →
          c.2.mem (boardMap.BRAM_BASE + 4 * j) = sE.mem (boardMap.BRAM_BASE + 4 * j))) ∧
      (∀ s, idle_run boardMap 50001 5 (IdlePc.test, s)
        = (idle_body boardMap 50001 s).map fun s' => (IdlePc.test, s')) ∧
      (∀ f, main boardMap f (initState fun a => a) = none) :=
  ⟨by decide, by decide,
    idle_loop_blinks boardMap 50001 (initState fun a => a) (by decide) (by decide)⟩

/-! ## The capture sequence -/

theorem bram_addr_eq (P : RegisterMap) (k : Nat) (h : P.BRAM_BASE + 4 * k < 4294967296) :
    bram_addr P k = P.BRAM_BASE + 4 * k := by
  unfold bram_addr
  have h1 : (k * 4) % 4294967296 = 4 * k := by
    rw [Nat.mod_eq_of_lt (by omega)]; omega
  rw [h1, Nat.mod_eq_of_lt h]

theorem busEvents_dumpEvents (P : RegisterMap) (m : Mem) (start count : Nat)
    (h : P.BRAM_BASE + 4 * (start + count) ≤ 4294967296) :
    busEvents (dumpEvents P m start count)
      = (List.range count).map fun k => Event.read (P.BRAM_BASE + 4 * (start + k)) := by
  induction count with
  | zero => rfl
  | succ n ih =>
    have hmod : (start + n) % 4294967296 = start + n := Nat.mod_eq_of_lt (by omega)
    have ha := bram_addr_eq P (start + n) (by omega)
    simp only [dumpEvents] at ih ⊢
    simp only [List.range_succ, List.flatMap_append, busEvents_append, ih (by omega),
      List.map_append]
    simp [busEvents, dumpEntry, hmod, ha]

theorem bramEvents_split (P : RegisterMap) (m : Mem) :
    bramEvents P m = captureEvents P m ++ postCaptureEvents P (m.store P.BRAM_CTRL_BASE 0) := by
  simp [bramEvents, captureEvents, postCaptureEvents]

theorem writesOf_postCapture (P : RegisterMap) (m : Mem) :
    writesOf (postCaptureEvents P m ++ summaryEvents) = [] := by
  simp only [postCaptureEvents, writesOf_append, writesOf_dumpEvents]
  simp [writesOf, summaryEvents]

theorem writesOf_mainEvents (P : RegisterMap) (m : Mem) :
    writesOf (mainEvents P m)
      = [(P.LEDS_BASE, 1), (P.LEDS_BASE, 2), (P.LEDS_BASE, 4), (P.LEDS_BASE, 8),
         (P.LEDS_BASE, 16), (P.LEDS_BASE, 32), (P.LEDS_BASE, 64), (P.LEDS_BASE, 128),
         (P.LEDS_BASE, 0x7F), (P.LEDS_BASE, 0x00),
         (P.BRAM_CTRL_BASE, 0xFFFFFFFF), (P.BRAM_CTRL_BASE, 0x00000000)] := by
  simp only [mainEvents, ledTestEvents, bramEvents, writesOf_append, writesOf_dumpEvents]
  simp [writesOf, bannerEvents, walkEvents, walkEntry, onOffEvents, summaryEvents,
    List.range_succ]

theorem main_run_eq (P : RegisterMap) (fuel k : Nat) (m : Mem) (hf : 50000 < fuel) :
    main_run P fuel k (initState m)
      = some (idlePcAt k,
          { mem := replay ((m.store P.LEDS_BASE 0).store P.BRAM_CTRL_BASE 0) (idleTrace P k),
            trace := mainEvents P m ++ idleTrace P k,
            spins := 180000000 + (delaysOf (idleTrace P k)).length * 25000000 }) := by
  simp [main_run, main_to_idle_eq P fuel _ hf, idle_run_eq P fuel hf, initState]

/-- C8: after the LED test and before the idle loop `main` makes exactly these bus
accesses and delay requests, in this order: reads of buffer words 0..7, write
`0xFFFFFFFF` to the capture-control register, delay 1000, write `0` to the
capture-control register, reads of buffer words 0..23, reads of buffer words 100..111.
From the second of these writes to the entry of the idle loop the control register is
0; in the whole run, idle loop included, the control register is written exactly
twice and no write goes to a capture-buffer word. -/
theorem capture_sequence (P : RegisterMap) (fuel : Nat) (m : Mem) (hP : P.WellFormed)
    (h112 : 112 ≤ P.BRAM_WORDS) (hf : 50000 < fuel) :
    ∃ sL sB cap post, main_led_test P fuel (initState m) = some sL ∧
      bram_tests P fuel sL = some sB ∧
      main_to_idle P fuel (initState m) = some (main_summary sB) ∧
      (main_summary sB).trace = sL.trace ++ (cap ++ post) ∧
      busEvents cap
        = (List.range 8).map (fun k => Event.read (P.BRAM_BASE + 4 * k)) ++
          [Event.write P.BRAM_CTRL_BASE 0xFFFFFFFF, Event.delay 1000,
           Event.write P.BRAM_CTRL_BASE 0x00000000] ∧
      busEvents post
        = (List.range 24).map (fun k => Event.read (P.BRAM_BASE + 4 * k)) ++
          (List.range 12).map (fun k => Event.read (P.BRAM_BASE + 4 * (100 + k))) ∧
      (∀ n, replay sL.mem (cap ++ post.take n) P.BRAM_CTRL_BASE = 0) ∧
      (main_summary sB).mem P.BRAM_CTRL_BASE = 0 ∧
      (∀ k, ∃ c, main_run P fuel k (initState m) = some c ∧
        c.2.mem P.BRAM_CTRL_BASE = 0 ∧
        (writesOf c.2.trace).filter (fun w => decide (w.1 = P.BRAM_CTRL_BASE))
          = [(P.BRAM_CTRL_BASE, 0xFFFFFFFF), (P.BRAM_CTRL_BASE, 0x00000000)] ∧
        (∀ j v, j < P.BRAM_WORDS → Event.write (P.BRAM_BASE + 4 * j) v ∉ c.2.trace)) := by
  obtain ⟨_, _, _, _, _, hsz, hne, hl, hb⟩ := hP
  have hpost : ∀ m' : Mem, writesOf (postCaptureEvents P m' ++ summaryEvents) = [] :=
    writesOf_postCapture P
  have hcap : ∀ m' : Mem, replay m' (captureEvents P m') = m'.store P.BRAM_CTRL_BASE 0 := by
    intro m'
    simp only [captureEvents, replay_append, replay_of_no_writes _ (writesOf_dumpEvents _ _ _ _)]
    simp [replay, store_store]
  refine ⟨_, _, captureEvents P ((initState m).mem.store P.LEDS_BASE 0),
    postCaptureEvents P (((initState m).mem.store P.LEDS_BASE 0).store P.BRAM_CTRL_BASE 0)
      ++ summaryEvents,
    main_led_test_eq P fuel _ hf, bram_tests_eq P fuel _ hf, ?_, ?_, ?_, ?_, ?_, ?_, ?_⟩
  · simp [main_to_idle, main_led_test_eq P fuel _ hf, bram_tests_eq P fuel _ hf]
  · simp [main_summary, xil_printf, bramEvents_split, summaryEvents]
  · simp only [captureEvents, busEvents_append,
      busEvents_dumpEvents P _ 0 8 (by omega)]
    simp [busEvents]
  · simp only [postCaptureEvents, busEvents_append,
      busEvents_dumpEvents P _ 0 24 (by omega), busEvents_dumpEvents P _ 100 12 (by omega)]
    simp [busEvents, summaryEvents]
  · intro n
    rw [replay_append, hcap]
    apply replay_inv (fun v => v = 0)
    · simp [Mem.store]
    · intro v hv
      have h1 := (write_mem_iff _ _ _).mp (List.mem_of_mem_take hv)
      rw [hpost] at h1
      cases h1
  · simp [main_summary, xil_printf, Mem.store]
  · intro k
    refine ⟨_, main_run_eq P fuel k m hf, ?_, ?_, ?_⟩
    · apply replay_inv (fun v => v = 0)
      · simp [Mem.store]
      · intro v hv
        rcases mem_idleTrace P k _ hv with h | h | h
        · injection h with h1 _; exact absurd h1.symm hne
        · injection h
        · cases h
    · have hi : (writesOf (idleTrace P k)).filter (fun w => decide (w.1 = P.BRAM_CTRL_BASE))
          = [] := by
        rw [List.filter_eq_nil_iff]
        intro w hw
        have hw' := (write_mem_iff w.1 w.2 _).mpr hw
        rcases mem_idleTrace P k _ hw' with h | h | h
        · injection h with h1 _; simp [h1, hne]
        · injection h with h1 _; simp [h1, hne]
        · cases h
      simp only [writesOf_append, List.filter_append, hi, writesOf_mainEvents]
      simp [List.filter, hne]
    · intro j v hj hv
      have hx : P.BRAM_BASE + 4 * j ≠ P.LEDS_BASE := by omega
      have hy : P.BRAM_BASE + 4 * j ≠ P.BRAM_CTRL_BASE := by omega
      rcases List.mem_append.mp hv with h | h
      · have h1 := (write_mem_iff _ _ _).mp h
        rw [writesOf_mainEvents] at h1
        simp [hx, hy] at h1
      · rcases mem_idleTrace P k _ h with h | h | h
        · injection h with h1 _; exact absurd h1 hx
        · injection h with h1 _; exact absurd h1 hx
        · cases h

/-- C8 on the board map, from a memory where every word holds its own address. -/
theorem capture_sequence_witness :
    boardMap.WellFormed ∧ 112 ≤ boardMap.BRAM_WORDS ∧ (50000 : Nat) < 50001 ∧
    ∃ sL sB cap post, main_led_test boardMap 50001 (initState fun a => a) = some sL ∧
      bram_tests boardMap 50001 sL = some sB ∧
      main_to_idle boardMap 50001 (initState fun a => a) = some (main_summary sB) ∧
      (main_summary sB).trace = sL.trace ++ (cap ++ post) ∧
      busEvents cap
        = (List.range 8).map (fun k => Event.read (boardMap.BRAM_BASE + 4 * k)) ++
          [Event.write boardMap.BRAM_CTRL_BASE 0xFFFFFFFF, Event.delay 1000,
           Event.write boardMap.BRAM_CTRL_BASE 0x00000000] ∧
      busEvents post
        = (List.range 24).map (fun k => Event.read (boardMap.BRAM_BASE + 4 * k)) ++
          (List.range 12).map (fun k => Event.read (boardMap.BRAM_BASE + 4 * (100 + k))) ∧
      (∀ n, replay sL.mem (cap ++ post.take n) boardMap.BRAM_CTRL_BASE = 0) ∧
      (main_summary sB).mem boardMap.BRAM_CTRL_BASE = 0 ∧
      (∀ k, ∃ c, main_run boardMap 50001 k (initState fun a => a) = some c ∧
        c.2.mem boardMap.BRAM_CTRL_BASE = 0 ∧
        (writesOf c.2.trace).filter (fun w => decide (w.1 = boardMap.BRAM_CTRL_BASE))
          = [(boardMap.BRAM_CTRL_BASE, 0xFFFFFFFF), (boardMap.BRAM_CTRL_BASE, 0x00000000)] ∧
        (∀ j v, j < boardMap.BRAM_WORDS →
          Event.write (boardMap.BRAM_BASE + 4 * j) v ∉ c.2.trace)) :=
  ⟨by decide, by decide, by decide,
    capture_sequence boardMap 50001 (fun a => a) (by decide) (by decide) (by decide)⟩

/-! ## No branching on the words read -/

theorem forall2_append {R : Event → Event → Prop} {a b c d : List Event}
    (h1 : List.Forall₂ R a b) (h2 : List.Forall₂ R c d) : List.Forall₂ R (a ++ c) (b ++ d) := by
  induction h1 with
  | nil => exact h2
  | cons h _ ih => exact List.Forall₂.cons h ih

theorem forall2_same (t : List Event) : List.Forall₂ sameUpToWord t t := by
  induction t with
  | nil => exact List.Forall₂.nil
  | cons e es ih => exact List.Forall₂.cons (Or.inl rfl) ih

theorem forall2_dump (P : RegisterMap) (m1 m2 : Mem) (start count : Nat) :
    List.Forall₂ sameUpToWord (dumpEvents P m1 start count) (dumpEvents P m2 start count) := by
  induction count with
  | zero => exact List.Forall₂.nil
  | succ n ih =>
    simp only [dumpEvents, List.range_succ, List.flatMap_append, List.flatMap_singleton,
      List.flatMap_nil, List.append_nil] at ih ⊢
    refine forall2_append ih ?_
    exact List.Forall₂.cons (Or.inl rfl)
      (List.Forall₂.cons
        (Or.inr ⟨_, [(start + n) % 4294967296], _, _, Or.inl rfl, rfl, rfl⟩) List.Forall₂.nil)

theorem forall2_mainEvents (P : RegisterMap) (m1 m2 : Mem) :
    List.Forall₂ sameUpToWord (mainEvents P m1) (mainEvents P m2) := by
  unfold mainEvents ledTestEvents bramEvents
  refine forall2_append (forall2_append (forall2_append (forall2_append ?_ (forall2_same _))
    (forall2_same _)) ?_) (forall2_same _)
  · unfold bannerEvents
    refine List.Forall₂.cons (Or.inl rfl) (List.Forall₂.cons (Or.inl rfl)
      (List.Forall₂.cons (Or.inl rfl) (List.Forall₂.cons (Or.inl rfl)
      (List.Forall₂.cons (Or.inl rfl) (List.Forall₂.cons (Or.inl rfl)
      (List.Forall₂.cons (Or.inl rfl) (List.Forall₂.cons ?_ List.Forall₂.nil)))))))
    exact Or.inr ⟨_, [], _, _, Or.inr rfl, rfl, rfl⟩
  · exact forall2_append (forall2_append (forall2_append (forall2_append (forall2_append
      (forall2_append (forall2_same _) (forall2_dump P _ _ 0 8)) (forall2_same _))
      (forall2_dump P _ _ 0 24)) (forall2_same _)) (forall2_dump P _ _ 100 12))
      (forall2_same _)

theorem forall2_projections {t1 t2 : List Event} (h : List.Forall₂ sameUpToWord t1 t2) :
    writesOf t1 = writesOf t2 ∧ readsOf t1 = readsOf t2 ∧ delaysOf t1 = delaysOf t2 ∧
      busEvents t1 = busEvents t2 := by
  induction h with
  | nil => exact ⟨rfl, rfl, rfl, rfl⟩
  | cons hR _ ih =>
    obtain ⟨i1, i2, i3, i4⟩ := ih
    simp only [writesOf, readsOf, delaysOf, busEvents] at i1 i2 i3 i4
    rcases hR with h | ⟨f, pre, v1, v2, _, h1, h2⟩
    · subst h
      simp only [writesOf, readsOf, delaysOf, busEvents, List.filterMap_cons, List.filter_cons,
        i1, i2, i3, i4]
      exact ⟨trivial, trivial, trivial, trivial⟩
    · subst h1 h2
      simp [writesOf, readsOf, delaysOf, busEvents, i1, i2, i3, i4]

/-- C9: for any two initial memories, after the part of `main` before the idle loop and
any number of statements of the idle loop, both runs exist and are at the same program
point, with the same register writes (address and value), the same read addresses,
the same delay requests and the same interleaving of the three; event by event the two
traces are equal except for the word shown by a print of a word that was read. -/
theorem main_does_not_branch (P : RegisterMap) (fuel k : Nat) (m1 m2 : Mem)
    (hf : 50000 < fuel) :
    ∃ c1 c2, main_run P fuel k (initState m1) = some c1 ∧
      main_run P fuel k (initState m2) = some c2 ∧
      c1.1 = c2.1 ∧
      writesOf c1.2.trace = writesOf c2.2.trace ∧
      readsOf c1.2.trace = readsOf c2.2.trace ∧
      delaysOf c1.2.trace = delaysOf c2.2.trace ∧
      busEvents c1.2.trace = busEvents c2.2.trace ∧
      List.Forall₂ sameUpToWord c1.2.trace c2.2.trace := by
  have h : List.Forall₂ sameUpToWord (mainEvents P m1 ++ idleTrace P k)
      (mainEvents P m2 ++ idleTrace P k) :=
    forall2_append (forall2_mainEvents P m1 m2) (forall2_same _)
  obtain ⟨h1, h2, h3, h4⟩ := forall2_projections h
  exact ⟨_, _, main_run_eq P fuel k m1 hf, main_run_eq P fuel k m2 hf, rfl, h1, h2, h3, h4, h⟩

/-- C9 on the board map, for a memory of zeros against a memory where every word holds
its own address, two iterations into the idle loop. -/
theorem main_does_not_branch_witness :
    (50000 : Nat) < 50001 ∧
    ∃ c1 c2, main_run boardMap 50001 10 (initState fun _ => 0) = some c1 ∧
      main_run boardMap 50001 10 (initState fun a => a) = some c2 ∧
      c1.1 = c2.1 ∧
      writesOf c1.2.trace = writesOf c2.2.trace ∧
      readsOf c1.2.trace = readsOf c2.2.trace ∧
      delaysOf c1.2.trace = delaysOf c2.2.trace ∧
      busEvents c1.2.trace = busEvents c2.2.trace ∧
      List.Forall₂ sameUpToWord c1.2.trace c2.2.trace :=
  ⟨by decide, main_does_not_branch boardMap 50001 10 (fun _ => 0) (fun a => a) (by decide)⟩

end AD4134
